import Mathlib

/-!
Verification of the Wooverzicht document-search client against its
natural-language specification.

The repository's frontend (Next.js/TypeScript) is shallowly embedded below:
the pure content of each component or hook is translated to a Lean function,
stateful React code becomes explicit state passing, and async control flow
(awaited HTTP requests) becomes a parameter describing the outcome of the
awaited operation.  The backend query engine (`backend/api.py`,
`backend/chromadb_query.py`) is not part of the provided sources; where a
claim depends on it, the corresponding definition is modelled from the
specification and marked as such in its doc comment.
-/

namespace Wooverzicht

/-! ## Model of JavaScript `String.prototype.trim` -/

/-- Whitespace predicate used by the model of JavaScript string trimming. -/
def isJsWs (c : Char) : Bool := c.isWhitespace

/-- Trim of a character list: drop whitespace from the front, then from the
back (by reversing, dropping from the front, and reversing again). -/
def trimChars (l : List Char) : List Char :=
  (((l.dropWhile isJsWs).reverse.dropWhile isJsWs)).reverse

/-- Model of JavaScript `query.trim()` on Lean strings. -/
def jsTrim (s : String) : String := String.mk (trimChars s.data)

theorem head_dropWhile_false (p : Char → Bool) :
    ∀ (l : List Char) (c : Char), (l.dropWhile p).head? = some c → p c = false := by
  intro l
  induction l with
  | nil => intro c h; simp [List.dropWhile] at h
  | cons a as ih =>
    intro c h
    by_cases hp : p a
    · rw [List.dropWhile_cons_of_pos hp] at h
      exact ih c h
    · rw [List.dropWhile_cons_of_neg hp] at h
      simp only [List.head?_cons, Option.some.injEq] at h
      subst h
      exact Bool.of_not_eq_true hp

/-- Dropping trailing characters (via reverse–dropWhile–reverse) either
empties the list or leaves its first element unchanged. -/
theorem head_rev_dropWhile_rev (p : Char → Bool) :
    ∀ (l : List Char) (c : Char),
      ((l.reverse.dropWhile p).reverse).head? = some c → l.head? = some c := by
  intro l
  induction l using List.reverseRecOn with
  | nil => intro c h; simp at h
  | append_singleton xs a ih =>
    intro c h
    rw [List.reverse_append, List.reverse_singleton, List.singleton_append] at h
    by_cases hp : p a
    · rw [List.dropWhile_cons_of_pos hp] at h
      have hx := ih c h
      cases xs with
      | nil => simp at hx
      | cons b bs => simpa using hx
    · rw [List.dropWhile_cons_of_neg hp] at h
      rw [List.reverse_cons, List.reverse_reverse] at h
      cases xs with
      | nil => simpa using h
      | cons b bs => simpa using h

/-- The first character of a trimmed string is not whitespace. -/
theorem trimChars_head (l : List Char) (c : Char)
    (h : (trimChars l).head? = some c) : isJsWs c = false := by
  unfold trimChars at h
  have h1 : (l.dropWhile isJsWs).head? = some c := head_rev_dropWhile_rev isJsWs _ c h
  exact head_dropWhile_false isJsWs l c h1

/-- The last character of a trimmed string is not whitespace. -/
theorem trimChars_getLast (l : List Char) (c : Char)
    (h : (trimChars l).getLast? = some c) : isJsWs c = false := by
  unfold trimChars at h
  rw [List.getLast?_eq_head?_reverse, List.reverse_reverse] at h
  exact head_dropWhile_false isJsWs _ c h

/-! ## Client data model (`wooverzicht-frontend/src/types/api.ts`) -/

/-- Metadata record attached to every chunk and document, as declared in
`types/api.ts` (`DocumentMetadata`). -/
structure DocumentMetadata where
  url : String
  provincie : String
  titel : String
  datum : String
  type : String
  publiekssamenvatting : String
  file_name : String
  file_type : String
  deriving DecidableEq, Repr

/-- A retrieved text fragment (`Chunk` in `types/api.ts`); `relevance_score`
is `number | null`, modelled as `WithBot ℚ` so that `null` is the bottom
score. -/
structure Chunk where
  id : String
  content : String
  relevance_score : WithBot ℚ
  metadata : DocumentMetadata
  deriving DecidableEq

/-- A deduplicated document result (`Document` in `types/api.ts`). -/
structure Document where
  id : String
  metadata : DocumentMetadata
  relevance_score : WithBot ℚ
  deriving DecidableEq

/-- The response contract (`SearchResponse` in `types/api.ts`). -/
structure SearchResponse where
  success : Bool
  query : String
  chunks : List Chunk
  documents : List Document
  total_chunks : ℕ
  total_documents : ℕ
  error : Option String
  deriving DecidableEq

/-- User-supplied filters (`SearchFilters` in `types/api.ts`): the date
bounds are `string | null`. -/
structure SearchFilters where
  provinces : List String
  startDate : Option String
  endDate : Option String
  deriving DecidableEq, Repr

/-- A search request (`SearchRequest` in `types/api.ts`). -/
structure SearchRequest where
  query : String
  filters : Option SearchFilters
  deriving DecidableEq, Repr

/-- Field names of the client-side metadata record, in declaration order
(`types/api.ts`, lines 1–10). -/
def documentMetadataFields : List String :=
  ["url", "provincie", "titel", "datum", "type", "publiekssamenvatting",
   "file_name", "file_type"]

/-- Field names the specification's response contract gives for the metadata
record (spec §6). -/
def specMetadataFields : List String :=
  ["url", "category", "title", "date", "type", "summary",
   "file_name", "file_type"]

/-- Metadata record spelled with the specification's field names (spec §6:
`{ url, category, title, date, type, summary, file_name, file_type }`).
Used only to compare the spec's schema with the client's. -/
structure SpecMetadata where
  url : String
  category : String
  title : String
  date : String
  type : String
  summary : String
  file_name : String
  file_type : String
  deriving DecidableEq

/-- Field-by-field translation of the client metadata record into the
specification's schema. -/
def metaToSpec (m : DocumentMetadata) : SpecMetadata :=
  { url := m.url
    category := m.provincie
    title := m.titel
    date := m.datum
    type := m.type
    summary := m.publiekssamenvatting
    file_name := m.file_name
    file_type := m.file_type }

/-- Inverse translation of `metaToSpec`. -/
def specToMeta (s : SpecMetadata) : DocumentMetadata :=
  { url := s.url
    provincie := s.category
    titel := s.title
    datum := s.date
    type := s.type
    publiekssamenvatting := s.summary
    file_name := s.file_name
    file_type := s.file_type }

/-! ## Client hook `useSearch` (`hooks/useSearch.ts`) -/

/-- The three state cells held by the `useSearch` hook. -/
structure UseSearchState where
  data : Option SearchResponse
  loading : Bool
  error : Option String
  deriving DecidableEq

/-- Outcome of the awaited HTTP call inside `searchDocuments`: success with a
parsed response, an axios error (optionally carrying a server-sent
`error` field plus the transport message), or a non-axios failure. -/
inductive FetchOutcome where
  | ok (resp : SearchResponse)
  | axiosErr (serverError : Option String) (message : String)
  | otherErr
  deriving DecidableEq

/-- JavaScript `a || b` on an optional error string: a missing or empty
server string falls back to the transport message
(`error.response?.data?.error || error.message` in `services/api.ts`). -/
def jsOr (a : Option String) (b : String) : String :=
  match a with
  | none => b
  | some s => if s = "" then b else s

/-- Result of `searchDocuments` as seen by its caller (`services/api.ts`,
lines 52–79): success returns the response; an axios error is rethrown as
`Error(error.response?.data?.error || error.message)`; any other failure as
`Error("An unexpected error occurred")`. -/
def searchDocumentsResult : FetchOutcome → Except String SearchResponse
  | .ok r => .ok r
  | .axiosErr se msg => .error (jsOr se msg)
  | .otherErr => .error "An unexpected error occurred"

/-- The HTTP request `useSearch.search` dispatches, if any: `none` when the
trimmed query is empty (early return, `useSearch.ts` lines 20–24), otherwise
the request body `{ query: query.trim(), filters }` (lines 30–33). -/
def searchDispatch (query : String) (filters : Option SearchFilters) :
    Option SearchRequest :=
  if jsTrim query = "" then none else some { query := jsTrim query, filters := filters }

/-- State transition of `useSearch.search` once the invocation has fully
settled: the empty-trim guard resets `data`/`error` and returns before
`setLoading(true)`; otherwise the awaited outcome either stores the response
or stores the thrown message, and `finally` clears `loading`. -/
def searchRun (st : UseSearchState) (query : String) (filters : Option SearchFilters)
    (o : FetchOutcome) : UseSearchState :=
  if jsTrim query = "" then
    { st with data := none, error := none }
  else
    match searchDocumentsResult o with
    | .ok r => { data := some r, loading := false, error := none }
    | .error m => { data := none, loading := false, error := some m }

/-- State transition of `useSearch.clearResults` (`useSearch.ts` lines
49–52): `setData(null); setError(null)`. -/
def clearResults (st : UseSearchState) : UseSearchState :=
  { st with data := none, error := none }

/-! ## `SearchBar` component (`components/SearchBar.tsx`) -/

/-- What `SearchBar.handleSearch` passes to its `onSearch` callback, as a
function of the text-field state: `if (query.trim()) onSearch(query.trim())`. -/
def handleSearchEmit (query : String) : Option String :=
  if jsTrim query = "" then none else some (jsTrim query)

/-- What `SearchBar.handleClear` passes to `onSearch`: always the empty
string (`setQuery(""); onSearch("")`). -/
def handleClearEmit : Option String := some ""

/-! ## Request coalescing in `services/api.ts` -/

/-- Model of `JSON.stringify` on the provinces array. -/
def stringifyProvinces : List String → String
  | [] => ""
  | [p] => "\x22" ++ p ++ "\x22"
  | p :: ps => "\x22" ++ p ++ "\x22," ++ stringifyProvinces ps

/-- Model of `JSON.stringify` on a `string | null` field. -/
def stringifyOptString : Option String → String
  | none => "null"
  | some s => "\x22" ++ s ++ "\x22"

/-- Model of `JSON.stringify(request.filters)`; an absent filters object
stringifies to `undefined` inside the template literal. -/
def stringifyFilters : Option SearchFilters → String
  | none => "undefined"
  | some f =>
      "\x7b\x22provinces\x22:[" ++ stringifyProvinces f.provinces ++
      "],\x22startDate\x22:" ++ stringifyOptString f.startDate ++
      ",\x22endDate\x22:" ++ stringifyOptString f.endDate ++ "\x7d"

/-- The coalescing key `search:${request.query}:${JSON.stringify(request.filters)}`
(`services/api.ts` line 42). -/
def requestKey (r : SearchRequest) : String :=
  "search:" ++ r.query ++ ":" ++ stringifyFilters r.filters

/-- State of the `searchDocuments` module: the `ongoingRequests` map (keyed
by `requestKey`, holding the identifier of the in-flight HTTP request) plus
the history of dispatched and settled HTTP requests. -/
structure ApiState where
  ongoing : List (String × ℕ)
  dispatched : List ℕ
  settled : List ℕ
  deriving DecidableEq

/-- Synchronous head of a `searchDocuments` call (`services/api.ts` lines
41–63): if the key is already in `ongoingRequests` the existing promise is
awaited and nothing is dispatched; otherwise a fresh HTTP request is
dispatched and its promise stored under the key.  Returns the new state, the
identifier of the request whose result the caller will receive, and whether
a new HTTP request was dispatched. -/
def searchDocumentsCall (s : ApiState) (key : String) (fresh : ℕ) :
    ApiState × ℕ × Bool :=
  match s.ongoing.find? (fun e => e.1 == key) with
  | some e => (s, e.2, false)
  | none =>
      ({ ongoing := (key, fresh) :: s.ongoing
         dispatched := fresh :: s.dispatched
         settled := s.settled }, fresh, true)

/-- Settling (fulfilment or rejection) of an in-flight request: the creating
call's `ongoingRequests.delete(requestKey)` runs on both the completion path
and the error path (`services/api.ts` lines 66–73). -/
def searchDocumentsSettle (s : ApiState) (rid : ℕ) : ApiState :=
  { ongoing := s.ongoing.filter (fun e => e.2 ≠ rid)
    dispatched := s.dispatched
    settled := rid :: s.settled }

/-- Events observable at the `searchDocuments` module boundary. -/
inductive ApiEvent where
  | call (key : String) (fresh : ℕ)
  | settle (rid : ℕ)
  deriving DecidableEq

/-- One step of the coalescing state machine. -/
def apiStep (s : ApiState) : ApiEvent → ApiState
  | .call k fresh => (searchDocumentsCall s k fresh).1
  | .settle rid => searchDocumentsSettle s rid

/-- Run a trace of events. -/
def apiRun (s : ApiState) : List ApiEvent → ApiState
  | [] => s
  | e :: es => apiRun (apiStep s e) es

/-- Well-formed traces: a `call` uses a genuinely fresh request identifier,
and a `settle` settles a dispatched, not-yet-settled request. -/
def WfEvents (s : ApiState) : List ApiEvent → Prop
  | [] => True
  | .call k fresh :: es =>
      fresh ∉ s.dispatched ∧ WfEvents (apiStep s (.call k fresh)) es
  | .settle rid :: es =>
      rid ∈ s.dispatched ∧ rid ∉ s.settled ∧ WfEvents (apiStep s (.settle rid)) es

instance instDecidableWfEvents : (s : ApiState) → (es : List ApiEvent) →
    Decidable (WfEvents s es)
  | _, [] => .isTrue trivial
  | s, .call k fresh :: es =>
      have := instDecidableWfEvents (apiStep s (.call k fresh)) es
      inferInstanceAs (Decidable (_ ∧ _))
  | s, .settle rid :: es =>
      have := instDecidableWfEvents (apiStep s (.settle rid)) es
      inferInstanceAs (Decidable (_ ∧ _ ∧ _))

/-- The module invariant: `ongoingRequests` holds exactly the in-flight
requests — every entry is dispatched and unsettled, keys and request
identifiers are unique, every dispatched-but-unsettled request has an entry,
and settled requests were dispatched. -/
def ApiInv (s : ApiState) : Prop :=
  (∀ e ∈ s.ongoing, e.2 ∈ s.dispatched ∧ e.2 ∉ s.settled) ∧
  (s.ongoing.map Prod.fst).Nodup ∧
  (s.ongoing.map Prod.snd).Nodup ∧
  (∀ r ∈ s.dispatched, r ∉ s.settled → ∃ e ∈ s.ongoing, e.2 = r) ∧
  (∀ r ∈ s.settled, r ∈ s.dispatched)

instance (s : ApiState) : Decidable (ApiInv s) := by
  unfold ApiInv; infer_instance

/-! ## `FilterPanel` and `Layout` (`components/FilterPanel.tsx`, `components/Layout.tsx`) -/

/-- The filters object `FilterPanel` emits to its parent (`FilterPanel.tsx`
lines 55–62): the selected provinces and the formatted dates, a cleared date
picker contributing `null` (`startDate?.format("YYYY-MM-DD") || null`). -/
def filterPanelEmit (selectedProvinces : List String)
    (startDate endDate : Option String) : SearchFilters :=
  { provinces := selectedProvinces
    startDate := startDate
    endDate := endDate }

/-- Initial `currentFilters` state of `Layout` (`Layout.tsx` lines 32–36). -/
def layoutInitialFilters : SearchFilters :=
  { provinces := []
    startDate := some "1970-01-01"
    endDate := some "2200-01-01" }

/-- State held by the `Layout` component that the search orchestration
touches. -/
structure LayoutState where
  isSearching : Bool
  currentQuery : String
  currentFilters : SearchFilters
  hook : UseSearchState
  deriving DecidableEq

/-- `Layout.executeSearch` (`Layout.tsx` lines 46–71) run to completion: the
`isSearchingRef` guard skips the call outright when a search is in progress;
otherwise the flag is raised, the query stored, the empty-trim branch clears
results, the non-empty branch awaits `search(query, filters)` with outcome
`o`, and `finally` lowers the flag on every exit path.  The returned boolean
records whether the call got past the guard. -/
def executeSearch (st : LayoutState) (query : String) (filters : SearchFilters)
    (o : FetchOutcome) : LayoutState × Bool :=
  if st.isSearching then
    (st, false)
  else
    let st1 : LayoutState := { st with isSearching := true, currentQuery := query }
    let st2 : LayoutState :=
      if jsTrim query = "" then
        { st1 with hook := clearResults st1.hook }
      else
        { st1 with hook := searchRun st1.hook query (some filters) o }
    ({ st2 with isSearching := false }, true)

/-- `Layout.handleFiltersChange` (`Layout.tsx` lines 82–98): the new filters
are always stored; a re-search runs only when no search is in flight and the
current query is non-blank.  The boolean records whether a re-search was
triggered. -/
def handleFiltersChange (st : LayoutState) (filters : SearchFilters)
    (o : FetchOutcome) : LayoutState × Bool :=
  let st' : LayoutState := { st with currentFilters := filters }
  if st.isSearching = false ∧ jsTrim st.currentQuery ≠ "" then
    (executeSearch st' st.currentQuery filters o)
  else
    (st', false)

/-! ## `SidePanel` (`components/SidePanel.tsx`) -/

/-- `SidePanel.documentChunks` (`SidePanel.tsx` lines 41–47): the chunks
shown for the selected document are the response chunks whose metadata title
equals the selected document's metadata title. -/
def documentChunks (doc : Option Document) (searchData : Option SearchResponse) :
    List Chunk :=
  match doc, searchData with
  | some d, some sd => sd.chunks.filter (fun c => c.metadata.titel == d.metadata.titel)
  | _, _ => []

/-! ## Spec-modelled backend query engine

The backend (`backend/api.py`, `backend/chromadb_query.py`) is not among the
provided sources; the definitions in this section are modelled from the
specification (spec §4.6, §5, §6, §8) and are marked as such. -/

/-- Lexicographic comparison of character lists by code point, the order
underlying ISO-date and identity comparisons in the model. -/
def charListLe : List Char → List Char → Bool
  | [], _ => true
  | _ :: _, [] => false
  | a :: as, b :: bs =>
      if a.toNat < b.toNat then true
      else if b.toNat < a.toNat then false
      else charListLe as bs

/-- Lexicographic string comparison; on `YYYY-MM-DD` strings this is the
chronological order. -/
def strLe (a b : String) : Bool := charListLe a.data b.data

theorem charListLe_total : ∀ l1 l2 : List Char,
    charListLe l1 l2 = true ∨ charListLe l2 l1 = true := by
  intro l1
  induction l1 with
  | nil => intro l2; exact Or.inl rfl
  | cons a as ih =>
      intro l2
      cases l2 with
      | nil => exact Or.inr rfl
      | cons b bs =>
          by_cases hab : a.toNat < b.toNat
          · exact Or.inl (by simp [charListLe, hab])
          · by_cases hba : b.toNat < a.toNat
            · exact Or.inr (by simp [charListLe, hba])
            · rcases ih bs with h | h
              · exact Or.inl (by simp [charListLe, hab, hba, h])
              · exact Or.inr (by simp [charListLe, hab, hba, h])

theorem charListLe_trans : ∀ l1 l2 l3 : List Char,
    charListLe l1 l2 = true → charListLe l2 l3 = true → charListLe l1 l3 = true := by
  intro l1
  induction l1 with
  | nil => intro l2 l3 _ _; rfl
  | cons a as ih =>
      intro l2 l3 h12 h23
      cases l2 with
      | nil => simp [charListLe] at h12
      | cons b bs =>
          cases l3 with
          | nil => simp [charListLe] at h23
          | cons c cs =>
              rw [charListLe] at h12 h23 ⊢
              by_cases hab : a.toNat < b.toNat
              · by_cases hbc : b.toNat < c.toNat
                · simp [Nat.lt_trans hab hbc]
                · by_cases hcb : c.toNat < b.toNat
                  · rw [if_neg hbc, if_pos hcb] at h23
                    exact absurd h23 (by simp)
                  · have hac : a.toNat < c.toNat := by
                      have hbceq : b.toNat = c.toNat := Nat.le_antisymm
                        (Nat.le_of_not_lt hcb) (Nat.le_of_not_lt hbc)
                      rw [← hbceq]
                      exact hab
                    simp [hac]
              · by_cases hba : b.toNat < a.toNat
                · rw [if_neg hab, if_pos hba] at h12
                  exact absurd h12 (by simp)
                · have habeq : a.toNat = b.toNat := Nat.le_antisymm
                    (Nat.le_of_not_lt hba) (Nat.le_of_not_lt hab)
                  rw [if_neg hab, if_neg hba] at h12
                  by_cases hbc : b.toNat < c.toNat
                  · have hac : a.toNat < c.toNat := by rw [habeq]; exact hbc
                    simp [hac]
                  · by_cases hcb : c.toNat < b.toNat
                    · rw [if_neg hbc, if_pos hcb] at h23
                      exact absurd h23 (by simp)
                    · rw [if_neg hbc, if_neg hcb] at h23
                      have hac : ¬ a.toNat < c.toNat := by rw [habeq]; exact hbc
                      have hca : ¬ c.toNat < a.toNat := by rw [habeq]; exact hcb
                      rw [if_neg hac, if_neg hca]
                      exact ih bs cs h12 h23

theorem strLe_total (a b : String) : strLe a b = true ∨ strLe b a = true :=
  charListLe_total a.data b.data

theorem strLe_trans (a b c : String) (h1 : strLe a b = true)
    (h2 : strLe b c = true) : strLe a c = true :=
  charListLe_trans a.data b.data c.data h1 h2

/-- Modelled from the spec: filter predicate the Vector Index applies
(spec §3 QueryFilters, §8 Filter correctness) — the metadata date lies in the
inclusive range, an absent bound constrains nothing, and when the category
set is non-empty the metadata category belongs to it. -/
def matchesFilters (f : SearchFilters) (m : DocumentMetadata) : Bool :=
  (match f.startDate with
   | none => true
   | some s => strLe s m.datum) &&
  (match f.endDate with
   | none => true
   | some e => strLe m.datum e) &&
  (f.provinces.isEmpty || f.provinces.contains m.provincie)

/-- Identity of a chunk's parent document, as the client's `SidePanel`
realizes it: the metadata title. -/
def chunkKey (c : Chunk) : String := c.metadata.titel

/-- Identity of a document result. -/
def docKey (d : Document) : String := d.metadata.titel

/-- Modelled from the spec: fold one chunk into the per-document
accumulator (spec §4.6 step 4) — an existing entry for the chunk's parent
document keeps its best score via `max`, a new parent appends a fresh entry. -/
def insertDoc (c : Chunk) : List Document → List Document
  | [] => [{ id := c.id, metadata := c.metadata, relevance_score := c.relevance_score }]
  | d :: ds =>
      if chunkKey c = docKey d then
        { d with relevance_score := max d.relevance_score c.relevance_score } :: ds
      else
        d :: insertDoc c ds

/-- Modelled from the spec: group the returned chunks by parent document
identity, one document entry per identity, carrying the maximum chunk
score. -/
def collectDocs : List Chunk → List Document
  | [] => []
  | c :: cs => insertDoc c (collectDocs cs)

/-- Modelled from the spec: document ranking order — higher score first,
ties broken by document identity ascending (spec §4.6 step 4: "rank
documents by that score descending; stable tie-break by document
identity"). -/
def docOrder (a b : Document) : Prop :=
  b.relevance_score < a.relevance_score ∨
  (a.relevance_score = b.relevance_score ∧ strLe (docKey a) (docKey b) = true)

instance : DecidableRel docOrder := fun a b => by
  unfold docOrder; infer_instance

instance : IsTotal Document docOrder where
  total a b := by
    unfold docOrder
    rcases lt_trichotomy a.relevance_score b.relevance_score with h | h | h
    · exact Or.inr (Or.inl h)
    · rcases strLe_total (docKey a) (docKey b) with hk | hk
      · exact Or.inl (Or.inr ⟨h, hk⟩)
      · exact Or.inr (Or.inr ⟨h.symm, hk⟩)
    · exact Or.inl (Or.inl h)

instance : IsTrans Document docOrder where
  trans a b c hab hbc := by
    unfold docOrder at *
    rcases hab with h1 | ⟨h1, k1⟩
    · rcases hbc with h2 | ⟨h2, _⟩
      · exact Or.inl (h2.trans h1)
      · exact Or.inl (h2 ▸ h1)
    · rcases hbc with h2 | ⟨h2, k2⟩
      · exact Or.inl (h1 ▸ h2)
      · exact Or.inr ⟨h1.trans h2, strLe_trans _ _ _ k1 k2⟩

/-- Modelled from the spec: deduplicated, ranked document list derived from
the returned chunks (spec §4.6 step 4). -/
def groupDocs (chunks : List Chunk) : List Document :=
  List.insertionSort docOrder (collectDocs chunks)

/-- Maximum relevance score of a list of chunks (`⊥` when empty). -/
def maxScore (l : List Chunk) : WithBot ℚ :=
  (l.map Chunk.relevance_score).foldr max ⊥

/-- Modelled from the spec: the Query Engine (spec §4.6) over a candidate
index — an empty or whitespace-only query returns the empty successful
result without invoking the embedding provider; otherwise the index is
searched with the filters applied, the surviving chunks are returned as
evidence, and the deduplicated document ranking is derived from them.  The
boolean records whether the embedding provider was invoked. -/
def queryEngine (idx : List Chunk) (q : String) (f : SearchFilters) :
    SearchResponse × Bool :=
  if jsTrim q = "" then
    ({ success := true, query := q, chunks := [], documents := []
       total_chunks := 0, total_documents := 0, error := none }, false)
  else
    let hits := idx.filter (fun c => matchesFilters f c.metadata)
    let docs := groupDocs hits
    ({ success := true, query := q, chunks := hits, documents := docs
       total_chunks := hits.length, total_documents := docs.length
       error := none }, true)

/-! ## Lemmas about the deduplication model -/

theorem key_mem_insertDoc (c : Chunk) (ds : List Document) (k : String) :
    k ∈ (insertDoc c ds).map docKey ↔ k = chunkKey c ∨ k ∈ ds.map docKey := by
  induction ds with
  | nil =>
      simp [insertDoc, docKey, chunkKey, eq_comm]
  | cons d ds ih =>
      by_cases h : chunkKey c = docKey d
      · simp only [insertDoc, if_pos h, List.map_cons, List.mem_cons]
        constructor
        · rintro (hk | hk)
          · exact Or.inr (Or.inl hk)
          · exact Or.inr (Or.inr hk)
        · rintro (hk | hk | hk)
          · exact Or.inl (by simpa [docKey] using hk.trans h)
          · exact Or.inl hk
          · exact Or.inr hk
      · simp only [insertDoc, if_neg h, List.map_cons, List.mem_cons, ih]
        tauto

theorem nodup_keys_insertDoc (c : Chunk) (ds : List Document)
    (h : (ds.map docKey).Nodup) : ((insertDoc c ds).map docKey).Nodup := by
  induction ds with
  | nil => simp [insertDoc]
  | cons d ds ih =>
      rw [List.map_cons, List.nodup_cons] at h
      by_cases hk : chunkKey c = docKey d
      · simp only [insertDoc, if_pos hk, List.map_cons, List.nodup_cons]
        exact ⟨h.1, h.2⟩
      · simp only [insertDoc, if_neg hk, List.map_cons, List.nodup_cons]
        refine ⟨?_, ih h.2⟩
        rw [key_mem_insertDoc]
        rintro (he | he)
        · exact hk (he.symm)
        · exact h.1 he

theorem nodup_keys_collectDocs (cs : List Chunk) :
    ((collectDocs cs).map docKey).Nodup := by
  induction cs with
  | nil => simp [collectDocs]
  | cons c cs ih => exact nodup_keys_insertDoc c _ ih

theorem key_mem_collectDocs (cs : List Chunk) (k : String) :
    k ∈ (collectDocs cs).map docKey ↔ k ∈ cs.map chunkKey := by
  induction cs with
  | nil => simp [collectDocs]
  | cons c cs ih =>
      simp only [collectDocs, key_mem_insertDoc, ih, List.map_cons, List.mem_cons]

theorem insertDoc_mem_cases (c : Chunk) (ds : List Document)
    (hnd : (ds.map docKey).Nodup) (d : Document) (h : d ∈ insertDoc c ds) :
    (d ∈ ds ∧ docKey d ≠ chunkKey c) ∨
    (∃ d' ∈ ds, docKey d' = chunkKey c ∧
        d = { d' with relevance_score := max d'.relevance_score c.relevance_score }) ∨
    ((¬ ∃ d' ∈ ds, docKey d' = chunkKey c) ∧
        d = { id := c.id, metadata := c.metadata, relevance_score := c.relevance_score }) := by
  induction ds with
  | nil =>
      simp only [insertDoc, List.mem_singleton] at h
      exact Or.inr (Or.inr ⟨by simp, h⟩)
  | cons d0 ds ih =>
      rw [List.map_cons, List.nodup_cons] at hnd
      by_cases hk : chunkKey c = docKey d0
      · rw [insertDoc, if_pos hk] at h
        rcases List.mem_cons.mp h with h | h
        · exact Or.inr (Or.inl ⟨d0, List.mem_cons_self _ _, hk.symm, h⟩)
        · refine Or.inl ⟨List.mem_cons_of_mem _ h, ?_⟩
          intro hd
          apply hnd.1
          have hmm : docKey d ∈ ds.map docKey := List.mem_map_of_mem docKey h
          rwa [hd, hk] at hmm
      · rw [insertDoc, if_neg hk] at h
        rcases List.mem_cons.mp h with h | h
        · exact Or.inl ⟨h ▸ List.mem_cons_self _ _, fun hd => hk ((h ▸ hd).symm)⟩
        · rcases ih hnd.2 h with ⟨hm, hne⟩ | ⟨d', hd', hk', heq⟩ | ⟨hnone, heq⟩
          · exact Or.inl ⟨List.mem_cons_of_mem _ hm, hne⟩
          · exact Or.inr (Or.inl ⟨d', List.mem_cons_of_mem _ hd', hk', heq⟩)
          · refine Or.inr (Or.inr ⟨?_, heq⟩)
            rintro ⟨d', hd', hk'⟩
            rcases List.mem_cons.mp hd' with rfl | hd'
            · exact hk hk'.symm
            · exact hnone ⟨d', hd', hk'⟩

theorem maxScore_cons (c : Chunk) (l : List Chunk) :
    maxScore (c :: l) = max c.relevance_score (maxScore l) := rfl

theorem metadata_collectDocs (cs : List Chunk) :
    ∀ d ∈ collectDocs cs, ∃ c ∈ cs, d.metadata = c.metadata := by
  induction cs with
  | nil => intro d h; simp [collectDocs] at h
  | cons c cs ih =>
      intro d h
      rw [collectDocs] at h
      rcases insertDoc_mem_cases c _ (nodup_keys_collectDocs cs) d h with
        ⟨hm, _⟩ | ⟨d', hd', _, heq⟩ | ⟨_, heq⟩
      · obtain ⟨c', hc', he⟩ := ih d hm
        exact ⟨c', List.mem_cons_of_mem _ hc', he⟩
      · obtain ⟨c', hc', he⟩ := ih d' hd'
        refine ⟨c', List.mem_cons_of_mem _ hc', ?_⟩
        simp only [heq]
        exact he
      · exact ⟨c, List.mem_cons_self _ _, by simp only [heq]⟩

theorem score_collectDocs (cs : List Chunk) :
    ∀ d ∈ collectDocs cs,
      d.relevance_score = maxScore (cs.filter (fun c => chunkKey c == docKey d)) := by
  induction cs with
  | nil => intro d h; simp [collectDocs] at h
  | cons c cs ih =>
      intro d h
      rw [collectDocs] at h
      rcases insertDoc_mem_cases c _ (nodup_keys_collectDocs cs) d h with
        ⟨hm, hne⟩ | ⟨d', hd', hk', heq⟩ | ⟨hnone, heq⟩
      · rw [List.filter_cons_of_neg (by simpa using fun he => hne he.symm)]
        exact ih d hm
      · have hkd : docKey d = docKey d' := by simp only [heq, docKey]
        have hsc : d.relevance_score = max d'.relevance_score c.relevance_score := by
          simp only [heq]
        rw [List.filter_cons_of_pos (by simp [hkd, hk']), maxScore_cons, hkd,
          ← ih d' hd', hsc]
        exact max_comm _ _
      · have hkd : docKey d = chunkKey c := by simp only [heq, docKey, chunkKey]
        have hfil : cs.filter (fun c' => chunkKey c' == docKey d) = [] := by
          rw [List.filter_eq_nil_iff]
          intro c' hc' hbe
          have hkc : chunkKey c' = docKey d := by simpa using hbe
          have hdm : docKey d ∈ (collectDocs cs).map docKey := by
            rw [key_mem_collectDocs]
            exact List.mem_map.mpr ⟨c', hc', hkc⟩
          obtain ⟨d', hd', hk'⟩ := List.mem_map.mp hdm
          exact hnone ⟨d', hd', by rw [hk', hkd]⟩
        have hsc : d.relevance_score = c.relevance_score := by simp only [heq]
        rw [List.filter_cons_of_pos (by simp [hkd]), hfil, maxScore_cons, hsc]
        exact (max_eq_left bot_le).symm

theorem length_filter_eq_one_of_nodup_map (f : Document → String)
    (l : List Document) (k : String) (hnd : (l.map f).Nodup)
    (hmem : k ∈ l.map f) : (l.filter (fun x => f x == k)).length = 1 := by
  induction l with
  | nil => simp at hmem
  | cons x xs ih =>
      rw [List.map_cons, List.nodup_cons] at hnd
      by_cases hx : f x = k
      · rw [List.filter_cons_of_pos (by simp [hx])]
        have hfil : xs.filter (fun y => f y == k) = [] := by
          rw [List.filter_eq_nil_iff]
          intro y hy hbe
          apply hnd.1
          have hym : f y ∈ xs.map f := List.mem_map_of_mem f hy
          rwa [show f y = k by simpa using hbe, ← hx] at hym
        rw [hfil]
        rfl
      · rw [List.filter_cons_of_neg (by simp [hx])]
        refine ih hnd.2 ?_
        rcases List.mem_map.mp hmem with ⟨y, hy, hk⟩
        rcases List.mem_cons.mp hy with rfl | hy
        · exact absurd hk hx
        · exact List.mem_map.mpr ⟨y, hy, hk⟩

theorem mem_groupDocs (chunks : List Chunk) (d : Document) :
    d ∈ groupDocs chunks ↔ d ∈ collectDocs chunks := by
  unfold groupDocs
  exact List.mem_insertionSort docOrder

theorem mem_documentChunks (d : Document) (sd : SearchResponse) (c : Chunk) :
    c ∈ documentChunks (some d) (some sd) ↔
      c ∈ sd.chunks ∧ c.metadata.titel = d.metadata.titel := by
  simp [documentChunks, List.mem_filter]

/-! ## Lemmas about the request-coalescing state machine -/

theorem find?_key_eq (l : List (String × ℕ)) (k : String) (r : ℕ)
    (hnd : (l.map Prod.fst).Nodup) (hmem : (k, r) ∈ l) :
    l.find? (fun e => e.1 == k) = some (k, r) := by
  induction l with
  | nil => simp at hmem
  | cons e l ih =>
      rw [List.map_cons, List.nodup_cons] at hnd
      by_cases he : e.1 = k
      · rw [List.find?_cons_of_pos _ (by simp [he])]
        rcases List.mem_cons.mp hmem with rfl | hmem
        · rfl
        · exact absurd (he ▸ List.mem_map_of_mem Prod.fst hmem) hnd.1
      · rw [List.find?_cons_of_neg _ (by simp [he])]
        rcases List.mem_cons.mp hmem with rfl | hmem
        · exact absurd rfl he
        · exact ih hnd.2 hmem

theorem apiInv_call (s : ApiState) (k : String) (fresh : ℕ)
    (hf : fresh ∉ s.dispatched) (hinv : ApiInv s) :
    ApiInv (searchDocumentsCall s k fresh).1 := by
  obtain ⟨h1, h2, h3, h4, h5⟩ := hinv
  unfold searchDocumentsCall
  cases hfind : s.ongoing.find? (fun e => e.1 == k) with
  | some e => exact ⟨h1, h2, h3, h4, h5⟩
  | none =>
      have hnotk : ∀ e ∈ s.ongoing, ¬ (e.1 = k) := by
        intro e he hk
        have := List.find?_eq_none.mp hfind e he
        simp [hk] at this
      refine ⟨?_, ?_, ?_, ?_, ?_⟩
      · intro e he
        rcases List.mem_cons.mp he with rfl | he
        · exact ⟨List.mem_cons_self _ _, fun hs => hf (h5 _ hs)⟩
        · obtain ⟨hd, hs⟩ := h1 e he
          exact ⟨List.mem_cons_of_mem _ hd, hs⟩
      · rw [List.map_cons, List.nodup_cons]
        refine ⟨?_, h2⟩
        intro hk
        obtain ⟨e, he, hke⟩ := List.mem_map.mp hk
        exact hnotk e he hke
      · rw [List.map_cons, List.nodup_cons]
        refine ⟨?_, h3⟩
        intro hk
        obtain ⟨e, he, hke⟩ := List.mem_map.mp hk
        apply hf
        have hed : e.2 ∈ s.dispatched := (h1 e he).1
        rwa [hke] at hed
      · intro r hr hs
        rcases List.mem_cons.mp hr with rfl | hr
        · exact ⟨(k, r), List.mem_cons_self _ _, rfl⟩
        · obtain ⟨e, he, her⟩ := h4 r hr hs
          exact ⟨e, List.mem_cons_of_mem _ he, her⟩
      · intro r hr
        exact List.mem_cons_of_mem _ (h5 r hr)

theorem apiInv_settle (s : ApiState) (rid : ℕ)
    (hd : rid ∈ s.dispatched) (hs : rid ∉ s.settled) (hinv : ApiInv s) :
    ApiInv (searchDocumentsSettle s rid) := by
  obtain ⟨h1, h2, h3, h4, h5⟩ := hinv
  unfold searchDocumentsSettle
  refine ⟨?_, ?_, ?_, ?_, ?_⟩
  · intro e he
    obtain ⟨hem, hcond⟩ := List.mem_filter.mp he
    obtain ⟨hed, hes⟩ := h1 e hem
    refine ⟨hed, ?_⟩
    intro hmem
    rcases List.mem_cons.mp hmem with he2 | he2
    · have hne : e.2 ≠ rid := by simpa using hcond
      exact hne he2
    · exact hes he2
  · exact ((List.filter_sublist _).map Prod.fst).nodup h2
  · exact ((List.filter_sublist _).map Prod.snd).nodup h3
  · intro r hr hrs
    have hrne : r ≠ rid := fun h => hrs (h ▸ List.mem_cons_self _ _)
    have hrs' : r ∉ s.settled := fun h => hrs (List.mem_cons_of_mem _ h)
    obtain ⟨e, he, her⟩ := h4 r hr hrs'
    refine ⟨e, List.mem_filter.mpr ⟨he, by simp [her, hrne]⟩, her⟩
  · intro r hr
    rcases List.mem_cons.mp hr with rfl | hr
    · exact hd
    · exact h5 r hr

theorem apiInv_run (s : ApiState) (es : List ApiEvent)
    (hwf : WfEvents s es) (hinv : ApiInv s) : ApiInv (apiRun s es) := by
  induction es generalizing s with
  | nil => exact hinv
  | cons e es ih =>
      cases e with
      | call k fresh =>
          obtain ⟨hf, hwf'⟩ := hwf
          exact ih _ hwf' (apiInv_call s k fresh hf hinv)
      | settle rid =>
          obtain ⟨hd, hs, hwf'⟩ := hwf
          exact ih _ hwf' (apiInv_settle s rid hd hs hinv)

/-! ## Claim theorems -/

/-- Claim C1: for every query whose content is empty or whitespace-only, the
search path returns an empty result and performs no external work — the
spec-modelled query engine answers with a successful empty response without
invoking the embedding provider, `useSearch.search` returns early (resetting
`data` and `error`) without calling `searchDocuments`, and `SearchBar`'s
search handler does not forward such a query at all. -/
theorem empty_query_short_circuits (q : String) (hq : jsTrim q = "")
    (st : UseSearchState) (f : Option SearchFilters) (o : FetchOutcome)
    (idx : List Chunk) (fb : SearchFilters) :
    searchDispatch q f = none ∧
    searchRun st q f o = { st with data := none, error := none } ∧
    queryEngine idx q fb =
      ({ success := true, query := q, chunks := [], documents := []
         total_chunks := 0, total_documents := 0, error := none }, false) ∧
    handleSearchEmit q = none := by
  refine ⟨?_, ?_, ?_, ?_⟩
  · simp [searchDispatch, hq]
  · simp [searchRun, hq]
  · simp [queryEngine, hq]
  · simp [handleSearchEmit, hq]

/-- Claim C1 witness at the whitespace-only query `"   "`. -/
theorem empty_query_short_circuits_witness :
    jsTrim "   " = "" ∧
    (searchDispatch "   " none = none ∧
     searchRun ⟨none, false, none⟩ "   " none .otherErr = ⟨none, false, none⟩ ∧
     queryEngine [] "   " ⟨[], none, none⟩ =
       ({ success := true, query := "   ", chunks := [], documents := []
          total_chunks := 0, total_documents := 0, error := none }, false) ∧
     handleSearchEmit "   " = none) :=
  ⟨by decide,
   empty_query_short_circuits "   " (by decide) ⟨none, false, none⟩ none .otherErr
     [] ⟨[], none, none⟩⟩

/-- Claim C2: in the spec-modelled deduplication, chunks sharing a parent
document identity yield exactly one document entry for that identity, the
entry's relevance score is the maximum of the scores of the chunks with that
identity, the document list is sorted by score descending with ties broken
by identity, and `SidePanel.documentChunks` associates with a selected
document exactly the response chunks bearing its identity. -/
theorem dedup_groups_by_identity (chunks : List Chunk) (c1 c2 : Chunk)
    (h1 : c1 ∈ chunks) (h2 : c2 ∈ chunks) (hk : chunkKey c1 = chunkKey c2) :
    ((groupDocs chunks).filter (fun d => docKey d == chunkKey c1)).length = 1 ∧
    (∀ d ∈ groupDocs chunks,
        d.relevance_score = maxScore (chunks.filter (fun c => chunkKey c == docKey d))) ∧
    List.Sorted docOrder (groupDocs chunks) ∧
    (∀ (d : Document) (sd : SearchResponse) (c : Chunk),
        c ∈ documentChunks (some d) (some sd) ↔
          c ∈ sd.chunks ∧ c.metadata.titel = d.metadata.titel) := by
  refine ⟨?_, ?_, ?_, mem_documentChunks⟩
  · have hperm :=
      (List.perm_insertionSort docOrder (collectDocs chunks)).filter
        (fun d => docKey d == chunkKey c1)
    rw [groupDocs, hperm.length_eq]
    refine length_filter_eq_one_of_nodup_map docKey _ _ (nodup_keys_collectDocs chunks) ?_
    rw [key_mem_collectDocs]
    exact List.mem_map_of_mem chunkKey h1
  · intro d hd
    exact score_collectDocs chunks d ((mem_groupDocs chunks d).mp hd)
  · exact List.sorted_insertionSort docOrder (collectDocs chunks)

/-- Sample metadata of a document titled `"A"`, used by concrete witnesses. -/
def sampleMetaA : DocumentMetadata :=
  ⟨"u1", "Zuid-Holland", "A", "2020-05-05", "besluit", "s", "f1", "pdf"⟩

/-- Sample chunk of the document titled `"A"` with score 2. -/
def sampleChunkA1 : Chunk := ⟨"c1", "t1", some (2 : ℚ), sampleMetaA⟩

/-- Sample chunk of the document titled `"A"` with score 5. -/
def sampleChunkA2 : Chunk := ⟨"c2", "t2", some (5 : ℚ), sampleMetaA⟩

/-- Claim C2 witness: two chunks of the document titled `"A"` with scores
2 and 5 collapse to one document entry scored 5. -/
theorem dedup_groups_by_identity_witness :
    sampleChunkA1 ∈ [sampleChunkA1, sampleChunkA2] ∧
    sampleChunkA2 ∈ [sampleChunkA1, sampleChunkA2] ∧
    chunkKey sampleChunkA1 = chunkKey sampleChunkA2 ∧
    (((groupDocs [sampleChunkA1, sampleChunkA2]).filter
        (fun d => docKey d == chunkKey sampleChunkA1)).length = 1 ∧
     (∀ d ∈ groupDocs [sampleChunkA1, sampleChunkA2],
         d.relevance_score =
           maxScore ([sampleChunkA1, sampleChunkA2].filter
             (fun c => chunkKey c == docKey d))) ∧
     List.Sorted docOrder (groupDocs [sampleChunkA1, sampleChunkA2]) ∧
     (∀ (d : Document) (sd : SearchResponse) (c : Chunk),
         c ∈ documentChunks (some d) (some sd) ↔
           c ∈ sd.chunks ∧ c.metadata.titel = d.metadata.titel)) :=
  ⟨by decide, by decide, by decide,
   dedup_groups_by_identity [sampleChunkA1, sampleChunkA2] sampleChunkA1
     sampleChunkA2 (by decide) (by decide) (by decide)⟩

/-- Claim C3 counterexample: the client metadata record's field names are
not the specification's — there is no `category` field; the corresponding
client field is `provincie`. -/
theorem metadata_field_names_differ :
    documentMetadataFields ≠ specMetadataFields ∧
    "category" ∉ documentMetadataFields ∧
    "provincie" ∈ documentMetadataFields := by
  decide

/-- Claim C3 (amended): the client metadata record realizes the spec's
response-contract schema up to field renaming — `provincie`/`category`,
`titel`/`title`, `datum`/`date`, `publiekssamenvatting`/`summary` — via an
inverse pair of field-preserving translations, with the same number of
fields. -/
theorem metadata_schema_up_to_renaming :
    (∀ m, specToMeta (metaToSpec m) = m) ∧
    (∀ s, metaToSpec (specToMeta s) = s) ∧
    (∀ m : DocumentMetadata,
        (metaToSpec m).url = m.url ∧
        (metaToSpec m).category = m.provincie ∧
        (metaToSpec m).title = m.titel ∧
        (metaToSpec m).date = m.datum ∧
        (metaToSpec m).type = m.type ∧
        (metaToSpec m).summary = m.publiekssamenvatting ∧
        (metaToSpec m).file_name = m.file_name ∧
        (metaToSpec m).file_type = m.file_type) ∧
    documentMetadataFields.length = specMetadataFields.length :=
  ⟨fun _ => rfl, fun _ => rfl,
   fun _ => ⟨rfl, rfl, rfl, rfl, rfl, rfl, rfl, rfl⟩, rfl⟩

/-- Claim C4: request coalescing in `searchDocuments` — a call whose key is
already in flight returns the in-flight request's result without dispatching
a second HTTP request; a call with no in-flight key dispatches and inserts
its entry; settling (completion or failure) removes the entry; over any
well-formed trace the map contains exactly the in-flight requests; and the
key is determined by the query plus the filters. -/
theorem request_coalescing (s : ApiState) (k : String) (r fresh rid : ℕ)
    (es : List ApiEvent) (hinv : ApiInv s) :
    ((k, r) ∈ s.ongoing → searchDocumentsCall s k fresh = (s, r, false)) ∧
    (s.ongoing.find? (fun e => e.1 == k) = none →
        (searchDocumentsCall s k fresh).2.2 = true ∧
        (k, fresh) ∈ (searchDocumentsCall s k fresh).1.ongoing ∧
        fresh ∈ (searchDocumentsCall s k fresh).1.dispatched) ∧
    (∀ e ∈ (searchDocumentsSettle s rid).ongoing, e.2 ≠ rid) ∧
    (WfEvents s es → ApiInv (apiRun s es)) ∧
    (∀ r1 r2 : SearchRequest, r1.query = r2.query → r1.filters = r2.filters →
        requestKey r1 = requestKey r2) := by
  refine ⟨?_, ?_, ?_, ?_, ?_⟩
  · intro hmem
    have hfind := find?_key_eq s.ongoing k r hinv.2.1 hmem
    rw [searchDocumentsCall, hfind]
  · intro hfind
    rw [searchDocumentsCall, hfind]
    exact ⟨rfl, List.mem_cons_self _ _, List.mem_cons_self _ _⟩
  · intro e he
    have hcond := (List.mem_filter.mp he).2
    simpa using hcond
  · intro hwf
    exact apiInv_run s es hwf hinv
  · intro r1 r2 hq hf
    rw [requestKey, requestKey, hq, hf]

/-- Claim C4 witness: with one request for `"wolf"` in flight, a duplicate
call reuses it, and the invariant survives the settle of the original. -/
theorem request_coalescing_witness :
    ApiInv ⟨[("search:wolf:undefined", 0)], [0], []⟩ ∧
    ((("search:wolf:undefined", 0) ∈
        (⟨[("search:wolf:undefined", 0)], [0], []⟩ : ApiState).ongoing →
      searchDocumentsCall ⟨[("search:wolf:undefined", 0)], [0], []⟩
        "search:wolf:undefined" 1 =
        (⟨[("search:wolf:undefined", 0)], [0], []⟩, 0, false)) ∧
     ((⟨[("search:wolf:undefined", 0)], [0], []⟩ : ApiState).ongoing.find?
          (fun e => e.1 == "search:wolf:undefined") = none →
        (searchDocumentsCall ⟨[("search:wolf:undefined", 0)], [0], []⟩
            "search:wolf:undefined" 1).2.2 = true ∧
        ("search:wolf:undefined", 1) ∈
          (searchDocumentsCall ⟨[("search:wolf:undefined", 0)], [0], []⟩
              "search:wolf:undefined" 1).1.ongoing ∧
        1 ∈ (searchDocumentsCall ⟨[("search:wolf:undefined", 0)], [0], []⟩
              "search:wolf:undefined" 1).1.dispatched) ∧
     (∀ e ∈ (searchDocumentsSettle ⟨[("search:wolf:undefined", 0)], [0], []⟩
              0).ongoing, e.2 ≠ 0) ∧
     (WfEvents ⟨[("search:wolf:undefined", 0)], [0], []⟩ [.settle 0] →
        ApiInv (apiRun ⟨[("search:wolf:undefined", 0)], [0], []⟩ [.settle 0])) ∧
     (∀ r1 r2 : SearchRequest, r1.query = r2.query → r1.filters = r2.filters →
        requestKey r1 = requestKey r2)) :=
  ⟨by decide,
   request_coalescing ⟨[("search:wolf:undefined", 0)], [0], []⟩
     "search:wolf:undefined" 0 1 0 [.settle 0] (by decide)⟩

/-- Claim C5: each absent date bound is individually treated as
unconstrained, never as an error — `Layout`'s initial filter state carries
the sentinel extremes `1970-01-01`/`2200-01-01`, `FilterPanel` emits `null`
for whichever picker is cleared, the spec-modelled filter predicate then
imposes no constraint for that bound (an absent start bound drops the lower
date test whatever the end bound is, an absent end bound drops the upper
date test whatever the start bound is, and with both absent no date test
remains), and the query engine answers successfully for every bound
combination. -/
theorem absent_date_bounds_unconstrained :
    layoutInitialFilters =
      { provinces := [], startDate := some "1970-01-01", endDate := some "2200-01-01" } ∧
    (∀ sp sd ed, (filterPanelEmit sp sd ed).startDate = sd ∧
        (filterPanelEmit sp sd ed).endDate = ed) ∧
    (∀ sp ed m, matchesFilters (filterPanelEmit sp none ed) m =
        ((match ed with
          | none => true
          | some e => strLe m.datum e) &&
         (sp.isEmpty || sp.contains m.provincie))) ∧
    (∀ sp sd m, matchesFilters (filterPanelEmit sp sd none) m =
        ((match sd with
          | none => true
          | some s => strLe s m.datum) &&
         (sp.isEmpty || sp.contains m.provincie))) ∧
    (∀ sp m, matchesFilters (filterPanelEmit sp none none) m =
        (sp.isEmpty || sp.contains m.provincie)) ∧
    (∀ idx q sp sd ed,
        ((queryEngine idx q (filterPanelEmit sp sd ed)).1).success = true) := by
  refine ⟨rfl, fun sp sd ed => ⟨rfl, rfl⟩, ?_, ?_, ?_, ?_⟩
  · intro sp ed m
    simp [matchesFilters, filterPanelEmit]
  · intro sp sd m
    simp [matchesFilters, filterPanelEmit]
  · intro sp m
    simp [matchesFilters, filterPanelEmit]
  · intro idx q sp sd ed
    by_cases hq : jsTrim q = ""
    · simp [queryEngine, hq]
    · simp [queryEngine, hq]

/-- Claim C6: every query-time failure is surfaced as an unsuccessful
outcome with a descriptive message and no partial results —
`searchDocuments` rethrows an axios failure as the server-provided error
string (or the transport message), and `useSearch` then stores that message
in its error state and clears its data state, whatever was displayed
before. -/
theorem query_failure_surfaces_error (st : UseSearchState) (q : String)
    (f : Option SearchFilters) (hq : jsTrim q ≠ "") :
    (∀ se msg, searchDocumentsResult (.axiosErr se msg) = .error (jsOr se msg)) ∧
    (∀ se msg, searchRun st q f (.axiosErr se msg) =
        { data := none, loading := false, error := some (jsOr se msg) }) ∧
    searchRun st q f .otherErr =
      { data := none, loading := false, error := some "An unexpected error occurred" } := by
  refine ⟨fun se msg => rfl, ?_, ?_⟩
  · intro se msg
    simp [searchRun, searchDocumentsResult, hq]
  · simp [searchRun, searchDocumentsResult, hq]

/-- Claim C6 witness: a failed search for `"wolf"` replaces previously
displayed data by the server's error message. -/
theorem query_failure_surfaces_error_witness :
    jsTrim "wolf" ≠ "" ∧
    ((∀ se msg, searchDocumentsResult (.axiosErr se msg) = .error (jsOr se msg)) ∧
     (∀ se msg,
        searchRun ⟨some ⟨true, "wolf", [], [], 0, 0, none⟩, true, none⟩ "wolf" none
            (.axiosErr se msg) =
          { data := none, loading := false, error := some (jsOr se msg) }) ∧
     searchRun ⟨some ⟨true, "wolf", [], [], 0, 0, none⟩, true, none⟩ "wolf" none
         .otherErr =
       { data := none, loading := false,
         error := some "An unexpected error occurred" }) :=
  ⟨by decide,
   query_failure_surfaces_error ⟨some ⟨true, "wolf", [], [], 0, 0, none⟩, true, none⟩
     "wolf" none (by decide)⟩

/-- Claim C7: filtering is sound — every document the (spec-modelled) query
engine returns has its metadata date inside the supplied inclusive date
range and, when the category set is non-empty, its category in that set;
and the client forwards the user's filters into the request unchanged. -/
theorem filters_sound (idx : List Chunk) (q : String) (f : SearchFilters)
    (d : Document) (hd : d ∈ ((queryEngine idx q f).1).documents) :
    (∀ s, f.startDate = some s → strLe s d.metadata.datum = true) ∧
    (∀ e, f.endDate = some e → strLe d.metadata.datum e = true) ∧
    (f.provinces ≠ [] → d.metadata.provincie ∈ f.provinces) ∧
    (∀ q2 f2 req, searchDispatch q2 (some f2) = some req → req.filters = some f2) := by
  have hpass : ∀ q2 f2 req, searchDispatch q2 (some f2) = some req →
      req.filters = some f2 := by
    intro q2 f2 req h
    rw [searchDispatch] at h
    by_cases hq2 : jsTrim q2 = ""
    · rw [if_pos hq2] at h
      exact absurd h (by simp)
    · rw [if_neg hq2] at h
      rw [← Option.some.inj h]
  by_cases hq : jsTrim q = ""
  · rw [queryEngine, if_pos hq] at hd
    simp at hd
  · simp only [queryEngine, if_neg hq] at hd
    obtain ⟨c, hc, hmeta⟩ :=
      metadata_collectDocs _ d ((mem_groupDocs _ d).mp hd)
    have hcf : matchesFilters f c.metadata = true := (List.mem_filter.mp hc).2
    simp only [matchesFilters, Bool.and_eq_true] at hcf
    obtain ⟨⟨hstart, hend⟩, hprov⟩ := hcf
    refine ⟨?_, ?_, ?_, hpass⟩
    · intro s hs
      rw [hs] at hstart
      rw [hmeta]
      exact hstart
    · intro e he
      rw [he] at hend
      rw [hmeta]
      exact hend
    · intro hne
      rw [hmeta]
      rcases Bool.or_eq_true_iff.mp hprov with hemp | hcont
      · exact absurd (List.isEmpty_iff.mp hemp) hne
      · simpa using hcont

/-- Claim C7 witness: a document surviving the range
`2020-01-01 … 2021-01-01` with category set `{Zuid-Holland}` satisfies both
constraints. -/
theorem filters_sound_witness :
    (⟨"c1", sampleMetaA, some (2 : ℚ)⟩ : Document) ∈
      ((queryEngine [sampleChunkA1] "wolf"
          ⟨["Zuid-Holland"], some "2020-01-01", some "2021-01-01"⟩).1).documents ∧
    ((∀ s, (⟨["Zuid-Holland"], some "2020-01-01", some "2021-01-01"⟩ :
          SearchFilters).startDate = some s →
        strLe s (⟨"c1", sampleMetaA, some (2 : ℚ)⟩ : Document).metadata.datum = true) ∧
     (∀ e, (⟨["Zuid-Holland"], some "2020-01-01", some "2021-01-01"⟩ :
          SearchFilters).endDate = some e →
        strLe (⟨"c1", sampleMetaA, some (2 : ℚ)⟩ : Document).metadata.datum e = true) ∧
     ((⟨["Zuid-Holland"], some "2020-01-01", some "2021-01-01"⟩ :
          SearchFilters).provinces ≠ [] →
        (⟨"c1", sampleMetaA, some (2 : ℚ)⟩ : Document).metadata.provincie ∈
          (⟨["Zuid-Holland"], some "2020-01-01", some "2021-01-01"⟩ :
            SearchFilters).provinces) ∧
     (∀ q2 f2 req, searchDispatch q2 (some f2) = some req →
        req.filters = some f2)) :=
  ⟨by decide,
   filters_sound [sampleChunkA1] "wolf"
     ⟨["Zuid-Holland"], some "2020-01-01", some "2021-01-01"⟩
     ⟨"c1", sampleMetaA, some (2 : ℚ)⟩ (by decide)⟩

/-- Claim C8 counterexample: `SearchBar`'s clear button invokes the search
callback with the empty string, whose trimmed form is empty — so it is not
the case that `SearchBar` only invokes its callback with a truthy
`query.trim()`. -/
theorem searchbar_clear_emits_blank :
    handleClearEmit = some "" ∧ jsTrim "" = "" :=
  ⟨rfl, rfl⟩

/-- Claim C8 (amended): every HTTP search request the client dispatches
carries a query that is non-empty after trimming and has no leading or
trailing whitespace — `SearchBar`'s search handler only forwards
`query.trim()` when it is non-empty (though the clear button invokes the
callback with the empty string, which `useSearch`'s guard absorbs without
dispatching), and `useSearch.search` guards on `query.trim()` and places
`query.trim()`, not the raw input, in the request body. -/
theorem dispatched_query_trimmed_nonempty (q : String)
    (f : Option SearchFilters) (req : SearchRequest)
    (h : searchDispatch q f = some req) :
    req.query = jsTrim q ∧
    req.query ≠ "" ∧
    (∀ c, req.query.data.head? = some c → c.isWhitespace = false) ∧
    (∀ c, req.query.data.getLast? = some c → c.isWhitespace = false) ∧
    (∀ q2 out, handleSearchEmit q2 = some out → out = jsTrim q2 ∧ out ≠ "") := by
  rw [searchDispatch] at h
  by_cases hq : jsTrim q = ""
  · rw [if_pos hq] at h
    exact absurd h (by simp)
  · rw [if_neg hq] at h
    have hreq : req = { query := jsTrim q, filters := f } := (Option.some.inj h).symm
    have hquery : req.query = jsTrim q := by rw [hreq]
    refine ⟨hquery, hquery ▸ hq, ?_, ?_, ?_⟩
    · intro c hc
      rw [hquery] at hc
      exact trimChars_head q.data c hc
    · intro c hc
      rw [hquery] at hc
      exact trimChars_getLast q.data c hc
    · intro q2 out hout
      rw [handleSearchEmit] at hout
      by_cases hq2 : jsTrim q2 = ""
      · rw [if_pos hq2] at hout
        exact absurd hout (by simp)
      · rw [if_neg hq2] at hout
        exact ⟨(Option.some.inj hout).symm, (Option.some.inj hout).symm ▸ hq2⟩

/-- Claim C8 witness: the raw input `"  wolf  "` is dispatched as the
request body query `"wolf"`. -/
theorem dispatched_query_trimmed_nonempty_witness :
    searchDispatch "  wolf  " none = some { query := "wolf", filters := none } ∧
    (({ query := "wolf", filters := none } : SearchRequest).query = jsTrim "  wolf  " ∧
     ({ query := "wolf", filters := none } : SearchRequest).query ≠ "" ∧
     (∀ c, ({ query := "wolf", filters := none } : SearchRequest).query.data.head? =
         some c → c.isWhitespace = false) ∧
     (∀ c, ({ query := "wolf", filters := none } : SearchRequest).query.data.getLast? =
         some c → c.isWhitespace = false) ∧
     (∀ q2 out, handleSearchEmit q2 = some out → out = jsTrim q2 ∧ out ≠ "")) :=
  ⟨by decide,
   dispatched_query_trimmed_nonempty "  wolf  " none
     { query := "wolf", filters := none } (by decide)⟩

/-- Claim C9: `Layout.executeSearch` never runs two searches concurrently —
a call arriving while the in-progress flag is set returns immediately
without running, the flag is lowered on every exit path so a subsequent
search always gets past the guard, and a filter change arriving during an
in-flight search stores the new filters without triggering a re-search. -/
theorem search_orchestration_nonreentrant (st : LayoutState) (q : String)
    (f : SearchFilters) (o : FetchOutcome) (st2 : LayoutState) (q2 : String)
    (f2 : SearchFilters) (o2 : FetchOutcome)
    (hs : st.isSearching = true) (hs2 : st2.isSearching = false) :
    executeSearch st q f o = (st, false) ∧
    (executeSearch st2 q2 f2 o2).1.isSearching = false ∧
    (executeSearch (executeSearch st2 q2 f2 o2).1 q f o).2 = true ∧
    handleFiltersChange st f o = ({ st with currentFilters := f }, false) := by
  have hrun : (executeSearch st2 q2 f2 o2).1.isSearching = false := by
    rw [executeSearch, if_neg (by rw [hs2]; exact Bool.false_ne_true)]
  refine ⟨?_, hrun, ?_, ?_⟩
  · rw [executeSearch, if_pos hs]
  · rw [executeSearch, if_neg (by rw [hrun]; exact Bool.false_ne_true)]
  · rw [handleFiltersChange]
    rw [if_neg (by rw [hs]; simp)]

/-- Claim C9 witness: with a search in flight, a second call and a filter
change are both inert; after a completed search the flag is down and a new
search starts. -/
theorem search_orchestration_nonreentrant_witness :
    (⟨true, "wolf", ⟨[], none, none⟩, ⟨none, true, none⟩⟩ :
        LayoutState).isSearching = true ∧
    (⟨false, "", ⟨[], none, none⟩, ⟨none, false, none⟩⟩ :
        LayoutState).isSearching = false ∧
    (executeSearch ⟨true, "wolf", ⟨[], none, none⟩, ⟨none, true, none⟩⟩ "bos"
        ⟨[], none, none⟩ .otherErr =
      (⟨true, "wolf", ⟨[], none, none⟩, ⟨none, true, none⟩⟩, false) ∧
     (executeSearch ⟨false, "", ⟨[], none, none⟩, ⟨none, false, none⟩⟩ "das"
        ⟨[], none, none⟩ .otherErr).1.isSearching = false ∧
     (executeSearch
        (executeSearch ⟨false, "", ⟨[], none, none⟩, ⟨none, false, none⟩⟩ "das"
          ⟨[], none, none⟩ .otherErr).1 "bos" ⟨[], none, none⟩ .otherErr).2 = true ∧
     handleFiltersChange ⟨true, "wolf", ⟨[], none, none⟩, ⟨none, true, none⟩⟩
        ⟨[], none, none⟩ .otherErr =
      (⟨true, "wolf", ⟨[], none, none⟩, ⟨none, true, none⟩⟩, false)) :=
  ⟨rfl, rfl,
   search_orchestration_nonreentrant
     ⟨true, "wolf", ⟨[], none, none⟩, ⟨none, true, none⟩⟩ "bos" ⟨[], none, none⟩
     .otherErr ⟨false, "", ⟨[], none, none⟩, ⟨none, false, none⟩⟩ "das"
     ⟨[], none, none⟩ .otherErr rfl rfl⟩

/-- Claim C10: `clearResults` resets `data` and `error` to `null` and
touches nothing else (`loading` in particular), and a search with a
whitespace-only query does the same without ever raising `loading`. -/
theorem clear_and_blank_query_frame (st : UseSearchState) (q : String)
    (f : Option SearchFilters) (o : FetchOutcome) (hq : jsTrim q = "") :
    clearResults st = { data := none, loading := st.loading, error := none } ∧
    searchRun st q f o = { data := none, loading := st.loading, error := none } := by
  constructor
  · rfl
  · simp [searchRun, hq]

/-- Claim C10 witness: clearing from a populated, non-loading state and
searching a blank query both land in the initial no-results state. -/
theorem clear_and_blank_query_frame_witness :
    jsTrim " " = "" ∧
    (clearResults ⟨some ⟨true, "q", [], [], 0, 0, none⟩, false, some "err"⟩ =
       { data := none, loading := false, error := none } ∧
     searchRun ⟨some ⟨true, "q", [], [], 0, 0, none⟩, false, some "err"⟩ " " none
         .otherErr =
       { data := none, loading := false, error := none }) :=
  ⟨by decide,
   clear_and_blank_query_frame
     ⟨some ⟨true, "q", [], [], 0, 0, none⟩, false, some "err"⟩ " " none .otherErr
     (by decide)⟩

end Wooverzicht
